import Mathlib

/-!
Verification development for the prover core of a PLONK-family zk-SNARK
(table-lookup grand-product argument in
`circuits/plonk-5-wires-plookup/src/polynomials/tbllkp.rs` and the proof
orchestrator in `dlog/plonk-15-wires/src/prover.rs`).

Dense polynomials are represented as little-endian coefficient lists
(`List F`), mirroring `ark_poly::univariate::DensePolynomial`.
Evaluation vectors over a domain are plain `List F`, mirroring
`ark_poly::Evaluations`.
-/

set_option linter.unusedSectionVars false

namespace PlookupProver

/-- The error kinds of `oracle::rndoracle::ProofError` used by the prover
core.  The specification refers to them as `WitnessShapeMismatch`
(= `WitnessCsInconsistent`), `PolyDivisionFailed` (= `PolyDivision`) and
`ArgumentIntegrityFailed` (= `ProofCreation`). -/
inductive ProofError where
  | WitnessCsInconsistent : ProofError
  | PolyDivision : ProofError
  | ProofCreation : ProofError
  deriving DecidableEq, Repr

variable {F : Type} [Field F] [DecidableEq F]

/-! ## Dense polynomial operations on little-endian coefficient lists -/

/-- Pointwise addition of coefficient lists (shorter list padded with 0). -/
def polyAdd : List F → List F → List F
  | [], q => q
  | p, [] => p
  | a :: p, b :: q => (a + b) :: polyAdd p q

/-- Negation of a coefficient list. -/
def polyNeg (p : List F) : List F := p.map (fun a => -a)

/-- Subtraction of coefficient lists. -/
def polySub (p q : List F) : List F := polyAdd p (polyNeg q)

/-- `PolyUtils::scale`: multiply every coefficient by `c`. -/
def polyScale (c : F) (p : List F) : List F := p.map (fun a => c * a)

/-- Remove trailing (highest-degree) zero coefficients, the canonical
form kept by `DensePolynomial`. -/
def trimP (p : List F) : List F :=
  (p.reverse.dropWhile (fun a => a = 0)).reverse

/-- `is_zero` test on a coefficient list: all coefficients vanish. -/
def isZeroP (p : List F) : Bool := p.all (fun a => a = 0)

/-- Length of the canonical form: `0` for the zero polynomial, else
`degree + 1`. -/
def degC (p : List F) : ℕ := (trimP p).length

/-- Leading coefficient (`0` for the zero polynomial). -/
def leadC (p : List F) : F := (trimP p).getLastD 0

/-- Multiplication by the monomial `c·x^k`. -/
def shiftScale (k : ℕ) (c : F) (p : List F) : List F :=
  List.replicate k 0 ++ polyScale c p

/-- One coefficient list for the monomial `c·x^k`. -/
def monoP (k : ℕ) (c : F) : List F := List.replicate k 0 ++ [c]

/-- Euclidean long division on coefficient lists, structured on a fuel
argument that strictly bounds the number of degree-reduction steps
(mirrors `DenseOrSparsePolynomial::divide_with_q_and_r`'s loop). -/
def divModFuel : ℕ → List F → List F → List F × List F
  | 0, r, _ => ([], r)
  | fuel + 1, r, d =>
    if degC r < degC d then ([], r)
    else
      let k := degC r - degC d
      let c := leadC r / leadC d
      let r' := polySub r (shiftScale k c d)
      let qr := divModFuel fuel r' d
      (polyAdd qr.1 (monoP k c), qr.2)

/-- `divide_with_q_and_r`: `none` exactly when the divisor is zero,
otherwise the Euclidean quotient and remainder. -/
def divMod (p d : List F) : Option (List F × List F) :=
  if isZeroP d then none else some (divModFuel (p.length + 1) p d)

/-- Vanishing polynomial `x^n - 1` of the size-`n` multiplicative domain. -/
def vanishingP (n : ℕ) : List F := polyAdd (List.replicate n 0 ++ [1]) [-1]

/-! ## Batched field inversion (`ark_ff::fields::batch_inversion`)

Montgomery's trick: skip zero entries, accumulate running products in a
forward pass, perform one field inversion, then unwind backwards. -/

/-- Forward pass: running products `[t·f₁, t·f₁·f₂, …]`. -/
def fwdProds (t : F) : List F → List F
  | [] => []
  | f :: r => (t * f) :: fwdProds (t * f) r

/-- Backward pass: walking the (reversed) nonzero entries together with
the shifted product vector, recover each inverse from the single
inverted total. -/
def bwdPass (tinv : F) : List F → List F → List F
  | f :: fs, s :: ss => (tinv * s) :: bwdPass (tinv * f) fs ss
  | _, _ => []

/-- Inverses (in order) of a list of entries, via one inversion. -/
def invCore (nz : List F) : List F :=
  let prods := fwdProds 1 nz
  let tinv := (prods.getLastD 1)⁻¹
  (bwdPass tinv nz.reverse (prods.dropLast.reverse ++ [1])).reverse

/-- Write the computed inverses back over the nonzero positions of the
original vector, leaving zero entries untouched. -/
def reinsert : List F → List F → List F
  | [], _ => []
  | x :: xs, is =>
    if x = 0 then 0 :: reinsert xs is
    else is.headD 0 :: reinsert xs is.tail

/-- `ark_ff::fields::batch_inversion` on a vector. -/
def batchInversion (v : List F) : List F :=
  reinsert v (invCore (v.filter (fun x => x ≠ 0)))

/-! ### Correctness of the batched inversion -/

theorem bwdPass_cons (tinv f s : F) (fs ss : List F) :
    bwdPass tinv (f :: fs) (s :: ss) = (tinv * s) :: bwdPass (tinv * f) fs ss :=
  rfl

theorem fwdProds_length (t : F) (xs : List F) :
    (fwdProds t xs).length = xs.length := by
  induction xs generalizing t with
  | nil => rfl
  | cons x xs ih => simp [fwdProds, ih]

theorem fwdProds_append (t y : F) (xs : List F) :
    fwdProds t (xs ++ [y]) =
      fwdProds t xs ++ [(fwdProds t xs).getLastD t * y] := by
  induction xs generalizing t with
  | nil => simp [fwdProds]
  | cons x xs ih =>
      show (t * x) :: fwdProds (t * x) (xs ++ [y])
          = ((t * x) :: fwdProds (t * x) xs) ++
            [((t * x) :: fwdProds (t * x) xs).getLastD t * y]
      rw [List.getLastD_cons, ih (t * x), List.cons_append]

theorem fwdProds_getLastD (t : F) (xs : List F) :
    (fwdProds t xs).getLastD t = t * xs.prod := by
  induction xs generalizing t with
  | nil => simp [fwdProds]
  | cons x xs ih =>
      simp only [fwdProds, List.getLastD_cons, ih (t * x), List.prod_cons]
      ring

theorem reverse_eq_getLastD_cons {l : List F} (h : l ≠ []) (d : F) :
    l.reverse = l.getLastD d :: l.dropLast.reverse := by
  conv_lhs => rw [← List.dropLast_append_getLast h]
  rw [List.reverse_append, List.getLastD_eq_getLast?,
    List.getLast?_eq_getLast l h]
  simp

theorem invCore_eq_map_inv (nz : List F) (h : ∀ x ∈ nz, x ≠ 0) :
    invCore nz = nz.map (fun x => x⁻¹) := by
  induction nz using List.reverseRecOn with
  | nil => simp [invCore, fwdProds, bwdPass]
  | append_singleton g f ih =>
      have hf : f ≠ 0 := h f (by simp)
      have hg : ∀ x ∈ g, x ≠ 0 := fun x hx => h x (by simp [hx])
      have hgprod : g.prod ≠ 0 := by
        refine List.prod_ne_zero ?_
        intro h0
        exact hg 0 h0 rfl
      have hlast : (fwdProds 1 g).getLastD 1 = g.prod := by
        simpa using fwdProds_getLastD 1 g
      have happ : fwdProds 1 (g ++ [f]) = fwdProds 1 g ++ [g.prod * f] := by
        rw [fwdProds_append, hlast]
      have e1 : (g.prod * f)⁻¹ * g.prod = f⁻¹ := by
        field_simp
      have e2 : (g.prod * f)⁻¹ * f = (g.prod)⁻¹ := by
        field_simp
        ring
      rcases eq_or_ne g [] with hgnil | hgne
      · subst hgnil
        simp only [List.nil_append, List.map_cons, List.map_nil]
        show (bwdPass ((fwdProds 1 [f]).getLastD 1)⁻¹ [f].reverse
            ((fwdProds 1 [f]).dropLast.reverse ++ [1])).reverse = [f⁻¹]
        simp [fwdProds, bwdPass]
      · have hfwdne : fwdProds 1 g ≠ [] := by
          intro hnil
          have := fwdProds_length (1 : F) g
          rw [hnil] at this
          exact hgne (List.eq_nil_of_length_eq_zero this.symm)
        have hrev : (fwdProds 1 g).reverse =
            g.prod :: (fwdProds 1 g).dropLast.reverse := by
          rw [reverse_eq_getLastD_cons hfwdne 1, hlast]
        have hstep : invCore (g ++ [f]) = invCore g ++ [f⁻¹] := by
          unfold invCore
          simp only [happ, List.dropLast_concat, List.getLastD_concat,
            List.reverse_append, List.reverse_cons, List.reverse_nil,
            List.nil_append, List.cons_append]
          rw [hrev, List.cons_append, bwdPass_cons, e1, e2,
            List.reverse_cons, hlast]
        rw [hstep, ih hg]
        simp

theorem reinsert_filter_map_inv (v : List F) :
    reinsert v ((v.filter (fun x => x ≠ 0)).map (fun x => x⁻¹)) =
      v.map (fun x => x⁻¹) := by
  induction v with
  | nil => rfl
  | cons x xs ih =>
      by_cases hx : x = 0
      · simpa [reinsert, hx, List.filter_cons] using ih
      · simpa [reinsert, hx, List.filter_cons] using ih

/-- The batched-inversion pass agrees with naive elementwise inversion
(zero entries are left at zero, matching the `0⁻¹ = 0` convention). -/
theorem batchInversion_eq_map_inv (v : List F) :
    batchInversion v = v.map (fun x => x⁻¹) := by
  unfold batchInversion
  rw [invCore_eq_map_inv]
  · exact reinsert_filter_map_inv v
  · intro x hx
    have := List.of_mem_filter hx
    simpa using this

/-! ## Lookup argument data (`plonk-5-wires-plookup`) -/

/-- `LookupEvals`: per-proof lookup evaluation vectors (`l` is the
grand-product aggregation column, `lw` the lookup-selected witness
values, `h1`/`h2` the two sorted windows). -/
structure LookupEvals (α : Type) where
  l : List α
  lw : List α
  h1 : List α
  h2 : List α
  deriving DecidableEq, Repr

/-- `LookupPolys`: the same data in coefficient (polynomial) form. -/
structure LookupPolys (α : Type) where
  l : List α
  lw : List α
  h1 : List α
  h2 : List α
  deriving DecidableEq, Repr

/-- The per-row denominator of the lookup grand-product recurrence:
`(γ' + h1[j] + β₂·h1[j+1]) · (γ' + h2[j] + β₂·h2[j+1])` with
`γ' = (1+β₂)·γ₂` (first loop of `tbllkp_aggreg`). -/
def lkpDenom (beta2 gamma2 : F) (h1 h2 : List F) (j : ℕ) : F :=
  ((1 + beta2) * gamma2 + h1.getD j 0 + beta2 * h1.getD (j + 1) 0) *
    ((1 + beta2) * gamma2 + h2.getD j 0 + beta2 * h2.getD (j + 1) 0)

/-- The per-row numerator factor of the recurrence:
`(1+β₂) · (γ₂ + lw[j]) · (γ' + table[j] + β₂·table[j+1])`
(second loop of `tbllkp_aggreg`). -/
def lkpNumer (beta2 gamma2 : F) (table1 lw : List F) (j : ℕ) : F :=
  (1 + beta2) * (gamma2 + lw.getD j 0) *
    ((1 + beta2) * gamma2 + table1.getD j 0 + beta2 * table1.getD (j + 1) 0)

/-- Second loop of `tbllkp_aggreg`: starting from the batch-inverted
denominators, accumulate the running product sequentially
(`z[j+1] *= z[j] * (1+β₂) * (γ₂+lw[j]) * (γ'+table[j]+β₂·table[j+1])`). -/
def lkpSecondPass (beta2 gamma2 : F) (table1 lw : List F) :
    F → ℕ → List F → List F
  | _, _, [] => []
  | acc, j, dinv :: rest =>
    let z' := dinv * (acc * lkpNumer beta2 gamma2 table1 lw j)
    z' :: lkpSecondPass beta2 gamma2 table1 lw z' (j + 1) rest

/-- The full evaluation vector `z[0..n)` computed by `tbllkp_aggreg`:
first loop writes the denominators into `z[1..n)`, one batched
inversion pass inverts them, the second loop folds in the numerators
and the running product. -/
def lkpZImpl (beta2 gamma2 : F) (table1 h1 h2 lw : List F) (n : ℕ) : List F :=
  let dens := (List.range (n - 1)).map (lkpDenom beta2 gamma2 h1 h2)
  1 :: lkpSecondPass beta2 gamma2 table1 lw 1 0 (batchInversion dens)

/-- The running-product sequence exactly as the specification's
recurrence states it:
`z[0] = 1`,
`z[j+1] = [(γ'+h1[j]+β₂h1[j+1])(γ'+h2[j]+β₂h2[j+1])]⁻¹
          · (1+β₂) · (γ₂+lw[j]) · (γ'+table[j]+β₂table[j+1]) · z[j]`. -/
def lkpZSpec (beta2 gamma2 : F) (table1 h1 h2 lw : List F) : ℕ → F
  | 0 => 1
  | j + 1 =>
    (lkpDenom beta2 gamma2 h1 h2 j)⁻¹ *
      lkpNumer beta2 gamma2 table1 lw j *
      lkpZSpec beta2 gamma2 table1 h1 h2 lw j

/-- `ConstraintSystem::tbllkp_aggreg`: compute the aggregation column,
enforce the terminal condition `z[n-1] = 1` (returning
`ProofError::ProofCreation`, the spec's `ArgumentIntegrityFailed`, when
it fails), then store the column in `lkpevl.l` and return the
interpolated polynomial blinded by a random multiple of the vanishing
polynomial.  Interpolation (`interp`) and the random blinding polynomial
(`blind`) are the external FFT/randomness collaborators. -/
def tbllkp_aggreg (beta2 gamma2 : F) (table1 : List F) (n : ℕ)
    (interp : List F → List F) (blind : List F)
    (lkpevl : LookupEvals F) :
    Except ProofError (List F) × LookupEvals F :=
  let z := lkpZImpl beta2 gamma2 table1 lkpevl.h1 lkpevl.h2 lkpevl.lw n
  if z.getD (n - 1) 0 ≠ 1 then (Except.error ProofError.ProofCreation, lkpevl)
  else
    (Except.ok (polyAdd (interp z) blind), { lkpevl with l := z })

/-! ## Sorted-set construction (`tbllkp_sortedset`) -/

/-- `ConstraintSystem::tbllkp_sortedset` over any linearly ordered value
type (field elements are compared by their canonical representatives in
the source): select the first `n-1` witness values of the last column
scaled by the per-gate lookup selector, append the table column, sort
the multiset union by value, and split it into the two overlapping
windows `h1 = s[0..n)` (what remains of `s` after draining `s[n..2n-1)`)
and `h2 = {s[n-1]} ∪ s[n..2n-1)`. -/
def tbllkp_sortedset {α : Type} [LinearOrder α] [Mul α] [Zero α]
    (gatesLookup table1 witnessLast : List α) (n : ℕ) : LookupEvals α :=
  let lw := ((witnessLast.take (n - 1)).zip gatesLookup).map
    (fun p => p.2 * p.1)
  let s := List.insertionSort (fun a b => a ≤ b) (lw ++ table1)
  let h := s.getD (n - 1) 0 :: (s.drop n).take (n - 1)
  { l := [0]
    lw := lw
    h1 := s.take n ++ s.drop (2 * n - 1)
    h2 := h }

/-! ## Lookup quotient contribution (`tbllkp_quot`) -/

/-- Pointwise (evaluation-domain) sum. -/
def evAdd (a b : List F) : List F := List.zipWith (fun x y => x + y) a b

/-- Pointwise difference. -/
def evSub (a b : List F) : List F := List.zipWith (fun x y => x - y) a b

/-- Pointwise product. -/
def evMul (a b : List F) : List F := List.zipWith (fun x y => x * y) a b

/-- Pointwise scaling. -/
def evScale (c : F) (a : List F) : List F := a.map (fun x => c * x)

/-- The extended-domain evaluation inputs of `tbllkp_quot`: the bundle
produced by `evaluate2` (`this`/`next` rows of `l`, `lw`, `h1`, `h2`)
together with the constraint system's cached evaluation vectors
`table8`, `table8w`, `l08`, `l18`.  These are all computed by the
external FFT collaborator. -/
structure LkpQuotEvalsIn (α : Type) where
  thisL : List α
  thisLw : List α
  thisH1 : List α
  thisH2 : List α
  nextL : List α
  nextH1 : List α
  nextH2 : List α
  table8 : List α
  table8w : List α
  l08 : List α
  l18 : List α
  deriving Repr

/-- The per-point recurrence identity assembled by `tbllkp_quot`
(its `Ok` evaluation component). -/
def lkpQuotEvals (beta2 gamma2 : F) (sidLast : F) (alpha0 : F)
    (ev : LkpQuotEvalsIn F) : List F :=
  let beta1 := 1 + beta2
  let gammabeta1 := evScale (beta1 * gamma2) ev.l08
  evScale alpha0
    (evMul
      (evSub
        (evMul
          (evMul (evScale beta1 ev.thisL)
            (evAdd (evScale gamma2 ev.l08) ev.thisLw))
          (evAdd gammabeta1 (evAdd ev.table8 (evScale beta2 ev.table8w))))
        (evMul
          (evMul ev.nextL
            (evAdd gammabeta1 (evAdd ev.thisH1 (evScale beta2 ev.nextH1))))
          (evAdd gammabeta1 (evAdd ev.thisH2 (evScale beta2 ev.nextH2)))))
      (evSub ev.l18 (evScale sidLast ev.l08)))

/-- `ConstraintSystem::tbllkp_quot`: the two boundary terms
`α₁·(l(x)-1) / (x-1)` and
`(α₂·(l(x)-1) + α₃·(h1(x)-h2(x)·shift)) / (x-ω^{n-1})`, each required
exact (a `None` division or nonzero remainder is
`ProofError::PolyDivision`, the spec's `PolyDivisionFailed`), plus the
pointwise recurrence contribution. -/
def tbllkp_quot (lkppolys : LookupPolys F) (sid : List F) (n : ℕ)
    (beta2 gamma2 : F) (alpha : List F) (ev : LkpQuotEvalsIn F) :
    Except ProofError (List F × List F) :=
  match divMod (polyScale (alpha.getD 1 0) (polySub lkppolys.l [1]))
      [-1, 1] with
  | none => Except.error ProofError.PolyDivision
  | some (bnd1, res1) =>
    if isZeroP res1 = false then Except.error ProofError.PolyDivision
    else
      match divMod
          (polyAdd (polyScale (alpha.getD 2 0) (polySub lkppolys.l [1]))
            (polyScale (alpha.getD 3 0) (polySub lkppolys.h1
              (List.zipWith (fun z w => z * w) lkppolys.h2 sid))))
          [-(sid.getD (n - 1) 0), 1] with
      | none => Except.error ProofError.PolyDivision
      | some (bnd2, res2) =>
        if isZeroP res2 = false then Except.error ProofError.PolyDivision
        else
          Except.ok
            (lkpQuotEvals beta2 gamma2 (sid.getD (n - 1) 0)
              (alpha.getD 0 0) ev,
             polyAdd bnd1 bnd2)

/-- Lines 295–300 of `prover.rs` (`create` step 8): divide the
assembled quotient numerator by the vanishing polynomial of the domain;
a failed or inexact division is `ProofError::PolyDivision`. -/
def createDivideStep (numerator : List F) (n : ℕ) :
    Except ProofError (List F) :=
  match divMod numerator (vanishingP n) with
  | none => Except.error ProofError.PolyDivision
  | some (t, res) =>
    if isZeroP res = false then Except.error ProofError.PolyDivision
    else Except.ok t

/-! ## C1: the batched two-pass product equals the specified recurrence -/

theorem lkpSecondPass_length (beta2 gamma2 : F) (table1 lw : List F)
    (acc : F) (j0 : ℕ) (ds : List F) :
    (lkpSecondPass beta2 gamma2 table1 lw acc j0 ds).length = ds.length := by
  induction ds generalizing acc j0 with
  | nil => rfl
  | cons d rest ih => simp [lkpSecondPass, ih]

theorem lkpSecondPass_getD (beta2 gamma2 : F) (table1 h1 h2 lw : List F) :
    ∀ (ds : List F) (j0 : ℕ) (acc : F),
      acc = lkpZSpec beta2 gamma2 table1 h1 h2 lw j0 →
      (∀ i, i < ds.length →
        ds.getD i 0 = (lkpDenom beta2 gamma2 h1 h2 (j0 + i))⁻¹) →
      ∀ k, k < ds.length →
        (lkpSecondPass beta2 gamma2 table1 lw acc j0 ds).getD k 0 =
          lkpZSpec beta2 gamma2 table1 h1 h2 lw (j0 + k + 1)
  | [], _, _, _, _, k, hk => absurd hk (by simp)
  | d :: rest, j0, acc, hacc, hds, k, hk => by
    have hd : d = (lkpDenom beta2 gamma2 h1 h2 j0)⁻¹ := by
      have := hds 0 (by simp)
      simpa using this
    have hz' : d * (acc * lkpNumer beta2 gamma2 table1 lw j0) =
        lkpZSpec beta2 gamma2 table1 h1 h2 lw (j0 + 1) := by
      rw [hd, hacc]
      show _ = (lkpDenom beta2 gamma2 h1 h2 j0)⁻¹ *
        lkpNumer beta2 gamma2 table1 lw j0 *
        lkpZSpec beta2 gamma2 table1 h1 h2 lw j0
      ring
    match k with
    | 0 => simpa [lkpSecondPass] using hz'
    | k + 1 =>
      have hrest : ∀ i, i < rest.length →
          rest.getD i 0 = (lkpDenom beta2 gamma2 h1 h2 (j0 + 1 + i))⁻¹ := by
        intro i hi
        have := hds (i + 1) (by simpa using Nat.succ_lt_succ hi)
        simpa [Nat.add_assoc, Nat.add_comm 1 i] using this
      have := lkpSecondPass_getD beta2 gamma2 table1 h1 h2 lw rest (j0 + 1)
        (d * (acc * lkpNumer beta2 gamma2 table1 lw j0)) hz' hrest k
        (by simpa using Nat.lt_of_succ_lt_succ hk)
      simpa [lkpSecondPass, Nat.add_assoc, Nat.add_comm 1 k] using this

theorem batchInversion_length (v : List F) :
    (batchInversion v).length = v.length := by
  rw [batchInversion_eq_map_inv, List.length_map]

/-- C1.  For every domain size `n ≥ 2`, challenges `β₂`, `γ₂`, table
values and lookup evaluations, the evaluation vector computed by
`tbllkp_aggreg`'s two-pass batched-inversion implementation has length
`n`, starts at `z[0] = 1`, and coincides at every index with the naive
per-element-inversion recurrence
`z[j+1] = [(γ'+h1[j]+β₂h1[j+1])(γ'+h2[j]+β₂h2[j+1])]⁻¹
          · (1+β₂)·(γ₂+lw[j])·(γ'+table[j]+β₂table[j+1]) · z[j]`
with `γ' = (1+β₂)·γ₂`. -/
theorem tbllkp_aggreg_batched_recurrence (beta2 gamma2 : F)
    (table1 h1 h2 lw : List F) (n : ℕ) (hn : 2 ≤ n) :
    (lkpZImpl beta2 gamma2 table1 h1 h2 lw n).length = n ∧
    (lkpZImpl beta2 gamma2 table1 h1 h2 lw n).getD 0 0 = 1 ∧
    ∀ j, j < n →
      (lkpZImpl beta2 gamma2 table1 h1 h2 lw n).getD j 0 =
        lkpZSpec beta2 gamma2 table1 h1 h2 lw j := by
  have hdens :
      ((List.range (n - 1)).map (lkpDenom beta2 gamma2 h1 h2)).length
        = n - 1 := by
    simp
  have hinv : ∀ i, i < n - 1 →
      (batchInversion
        ((List.range (n - 1)).map (lkpDenom beta2 gamma2 h1 h2))).getD i 0 =
        (lkpDenom beta2 gamma2 h1 h2 (0 + i))⁻¹ := by
    intro i hi
    rw [batchInversion_eq_map_inv, List.map_map]
    rw [List.getD_eq_getElem _ _ (by simpa using hi)]
    simp
  have hlen :
      (batchInversion
        ((List.range (n - 1)).map (lkpDenom beta2 gamma2 h1 h2))).length
        = n - 1 := by
    rw [batchInversion_length, hdens]
  refine ⟨?_, ?_, ?_⟩
  · unfold lkpZImpl
    rw [List.length_cons, lkpSecondPass_length, hlen]
    omega
  · rfl
  · intro j hj
    match j with
    | 0 => rfl
    | j + 1 =>
      show (lkpSecondPass beta2 gamma2 table1 lw 1 0 _).getD j 0 = _
      have := lkpSecondPass_getD beta2 gamma2 table1 h1 h2 lw
        (batchInversion
          ((List.range (n - 1)).map (lkpDenom beta2 gamma2 h1 h2)))
        0 1 rfl (by intro i hi; exact hinv i (by omega)) j
        (by rw [hlen]; omega)
      simpa using this

instance : Fact (Nat.Prime 5) := ⟨by norm_num⟩

theorem tbllkp_aggreg_batched_recurrence_witness :
    2 ≤ 2 ∧
    ((lkpZImpl (2 : ZMod 5) 3 [1, 2] [1, 1] [2, 2] [4] 2).length = 2 ∧
      (lkpZImpl (2 : ZMod 5) 3 [1, 1] [1, 1] [2, 2] [4] 2).getD 0 0 = 1 ∧
      ∀ j, j < 2 →
        (lkpZImpl (2 : ZMod 5) 3 [1, 1] [1, 1] [2, 2] [4] 2).getD j 0 =
          lkpZSpec (2 : ZMod 5) 3 [1, 1] [1, 1] [2, 2] [4] j) :=
  ⟨by decide,
    ⟨(tbllkp_aggreg_batched_recurrence 2 3 [1, 2] [1, 1] [2, 2] [4] 2
        (by decide)).1,
      (tbllkp_aggreg_batched_recurrence 2 3 [1, 1] [1, 1] [2, 2] [4] 2
        (by decide)).2⟩⟩

/-- C2.  `tbllkp_aggreg` returns an error — specifically the
`ProofCreation` kind (the spec's `ArgumentIntegrityFailed`), distinct
from every other kind — if and only if the completed recurrence yields
`z[n-1] ≠ 1`; no aggregation data is produced on that path, and when
`z[n-1] = 1` it returns `Ok` with the interpolated (and blinded)
aggregation polynomial. -/
theorem tbllkp_aggreg_terminal_check (beta2 gamma2 : F) (table1 : List F)
    (n : ℕ) (interp : List F → List F) (blind : List F)
    (lkpevl : LookupEvals F) :
    ((tbllkp_aggreg beta2 gamma2 table1 n interp blind lkpevl).1 =
        Except.error ProofError.ProofCreation ↔
      (lkpZImpl beta2 gamma2 table1 lkpevl.h1 lkpevl.h2 lkpevl.lw n).getD
          (n - 1) 0 ≠ 1) ∧
    ((lkpZImpl beta2 gamma2 table1 lkpevl.h1 lkpevl.h2 lkpevl.lw n).getD
        (n - 1) 0 = 1 →
      (tbllkp_aggreg beta2 gamma2 table1 n interp blind lkpevl).1 =
        Except.ok (polyAdd
          (interp (lkpZImpl beta2 gamma2 table1 lkpevl.h1 lkpevl.h2
            lkpevl.lw n)) blind)) ∧
    ProofError.ProofCreation ≠ ProofError.PolyDivision ∧
    ProofError.ProofCreation ≠ ProofError.WitnessCsInconsistent := by
  unfold tbllkp_aggreg
  by_cases hz : (lkpZImpl beta2 gamma2 table1 lkpevl.h1 lkpevl.h2
      lkpevl.lw n).getD (n - 1) 0 = 1
  · have hz' := hz
    rw [List.getD_eq_getElem?_getD] at hz'
    rw [if_neg (not_not_intro hz)]
    simp [hz']
  · have hz' := hz
    rw [List.getD_eq_getElem?_getD] at hz'
    rw [if_pos hz]
    simp [hz']

/-- C9.  `tbllkp_aggreg` mutates only the `l` field of its
`LookupEvals` argument — `lw`, `h1`, `h2` are returned unchanged — and
on the error path (`z[n-1] ≠ 1`) the whole `LookupEvals` is unchanged,
as `l` is assigned only after the terminal check passes. -/
theorem tbllkp_aggreg_frame (beta2 gamma2 : F) (table1 : List F)
    (n : ℕ) (interp : List F → List F) (blind : List F)
    (lkpevl : LookupEvals F) :
    ((tbllkp_aggreg beta2 gamma2 table1 n interp blind lkpevl).2.lw =
        lkpevl.lw ∧
      (tbllkp_aggreg beta2 gamma2 table1 n interp blind lkpevl).2.h1 =
        lkpevl.h1 ∧
      (tbllkp_aggreg beta2 gamma2 table1 n interp blind lkpevl).2.h2 =
        lkpevl.h2) ∧
    (∀ e, (tbllkp_aggreg beta2 gamma2 table1 n interp blind lkpevl).1 =
        Except.error e →
      (tbllkp_aggreg beta2 gamma2 table1 n interp blind lkpevl).2 =
        lkpevl) := by
  unfold tbllkp_aggreg
  by_cases hz : (lkpZImpl beta2 gamma2 table1 lkpevl.h1 lkpevl.h2
      lkpevl.lw n).getD (n - 1) 0 = 1
  · rw [if_neg (not_not_intro hz)]
    try simp
  · rw [if_pos hz]
    try simp

/-! ## C4: sorted-set construction -/

theorem getLastD_eq_getD_length_sub_one {α : Type} (l : List α) (d : α) :
    l.getLastD d = l.getD (l.length - 1) d := by
  rw [List.getLastD_eq_getLast?, List.getLast?_eq_getElem?,
    List.getD_eq_getElem?_getD]

/-- C4.  For every witness, `tbllkp_sortedset` forms the sorted-by-value
multiset union `s` of the `n-1` lookup-selected witness values and the
`n` table values, and returns windows `h1 = s[0..n)` and
`h2 = {s[n-1]} ∪ s[n..2n-1)`, each of length `n`, sharing exactly the
boundary element (`h1`'s last equals `h2`'s first); re-sorting
`h1 ++ h2`-without-the-duplicated-boundary reproduces `s`, which is a
permutation of the original multiset. -/
theorem tbllkp_sortedset_windows {α : Type} [LinearOrder α] [Mul α]
    [Zero α] (gatesLookup table1 witnessLast : List α) (n : ℕ)
    (hn : 1 ≤ n) (hw : witnessLast.length = n)
    (hg : gatesLookup.length = n) (ht : table1.length = n) :
    ((tbllkp_sortedset gatesLookup table1 witnessLast n).h1.length = n ∧
      (tbllkp_sortedset gatesLookup table1 witnessLast n).h2.length = n) ∧
    (tbllkp_sortedset gatesLookup table1 witnessLast n).h1.getLastD 0 =
      (tbllkp_sortedset gatesLookup table1 witnessLast n).h2.headD 0 ∧
    List.insertionSort (fun a b => a ≤ b)
        ((tbllkp_sortedset gatesLookup table1 witnessLast n).h1 ++
          (tbllkp_sortedset gatesLookup table1 witnessLast n).h2.tail) =
      List.insertionSort (fun a b => a ≤ b)
        ((tbllkp_sortedset gatesLookup table1 witnessLast n).lw ++ table1) ∧
    (List.insertionSort (fun a b => a ≤ b)
        ((tbllkp_sortedset gatesLookup table1 witnessLast n).lw ++ table1)).Perm
      ((tbllkp_sortedset gatesLookup table1 witnessLast n).lw ++ table1) := by
  have hlw :
      (((witnessLast.take (n - 1)).zip gatesLookup).map
        (fun p => p.2 * p.1)).length = n - 1 := by
    simp [hw, hg]
    try omega
  set lw := ((witnessLast.take (n - 1)).zip gatesLookup).map
    (fun p => p.2 * p.1) with hlwdef
  set s := List.insertionSort (fun a b => a ≤ b) (lw ++ table1) with hsdef
  have hslen : s.length = 2 * n - 1 := by
    rw [hsdef, List.length_insertionSort, List.length_append, hlw, ht]
    omega
  have hperm : s.Perm (lw ++ table1) := List.perm_insertionSort _ _
  have hsorted : List.Sorted (fun a b => a ≤ b) s :=
    List.sorted_insertionSort _ _
  have hh1 : (tbllkp_sortedset gatesLookup table1 witnessLast n).h1 =
      s.take n := by
    show s.take n ++ s.drop (2 * n - 1) = s.take n
    rw [List.drop_eq_nil_of_le (by omega), List.append_nil]
  have hh2 : (tbllkp_sortedset gatesLookup table1 witnessLast n).h2 =
      s.getD (n - 1) 0 :: (s.drop n).take (n - 1) := rfl
  have hlwfield : (tbllkp_sortedset gatesLookup table1 witnessLast n).lw =
      lw := rfl
  have hdroplen : (s.drop n).length = n - 1 := by
    rw [List.length_drop, hslen]
    omega
  have htake : (s.drop n).take (n - 1) = s.drop n :=
    List.take_of_length_le (by omega)
  have hh1len : (s.take n).length = n := by
    rw [List.length_take]
    omega
  refine ⟨⟨?_, ?_⟩, ?_, ?_, ?_⟩
  · rw [hh1, hh1len]
  · rw [hh2, List.length_cons, List.length_take, hdroplen]
    omega
  · rw [hh1, hh2, List.headD_cons, getLastD_eq_getD_length_sub_one,
      hh1len]
    rcases Nat.exists_eq_add_of_le hn with ⟨m, hm⟩
    have hlt : n - 1 < n := by omega
    rw [List.getD_eq_getElem _ _ (by rw [hh1len]; omega),
      List.getD_eq_getElem _ _ (by omega), List.getElem_take]
  · rw [hh1, hh2, hlwfield]
    show List.insertionSort _ (s.take n ++ (s.drop n).take (n - 1)) = s
    rw [htake, List.take_append_drop]
    exact List.eq_of_perm_of_sorted
      (List.perm_insertionSort _ s)
      (List.sorted_insertionSort _ s) hsorted
  · rw [hlwfield]
    exact hperm

theorem tbllkp_sortedset_windows_witness :
    1 ≤ 2 ∧ ([5, 7] : List ℕ).length = 2 ∧ ([1, 1] : List ℕ).length = 2 ∧
    ([3, 4] : List ℕ).length = 2 ∧
    (((tbllkp_sortedset [1, 1] [3, 4] [5, 7] 2).h1.length = 2 ∧
        (tbllkp_sortedset [1, 1] [3, 4] [5, 7] 2).h2.length = 2) ∧
      (tbllkp_sortedset [1, 1] [3, 4] [5, 7] 2).h1.getLastD 0 =
        (tbllkp_sortedset [1, 1] [3, 4] [5, 7] 2).h2.headD 0 ∧
      List.insertionSort (fun a b => a ≤ b)
          ((tbllkp_sortedset [1, 1] [3, 4] [5, 7] 2).h1 ++
            (tbllkp_sortedset [1, 1] [3, 4] [5, 7] 2).h2.tail) =
        List.insertionSort (fun a b => a ≤ b)
          ((tbllkp_sortedset [1, 1] [3, 4] [5, 7] 2).lw ++ [3, 4]) ∧
      (List.insertionSort (fun a b => a ≤ b)
          ((tbllkp_sortedset [1, 1] [3, 4] [5, 7] 2).lw ++ [3, 4])).Perm
        ((tbllkp_sortedset [1, 1] [3, 4] [5, 7] 2).lw ++ [3, 4])) :=
  ⟨by decide, by decide, by decide, by decide,
    tbllkp_sortedset_windows [1, 1] [3, 4] [5, 7] 2 (by decide) (by decide)
      (by decide) (by decide)⟩

/-! ## C3: exact-division remainder checks -/

/-- The Euclidean remainder computed by `divide_with_q_and_r`. -/
def polyRem (p d : List F) : List F := (divModFuel (p.length + 1) p d).2

theorem polyAdd_nil_right (p : List F) : polyAdd p [] = p := by
  cases p <;> rfl

theorem divMod_eq_of_not_zero (p d : List F) (hd : isZeroP d = false) :
    divMod p d = some ((divModFuel (p.length + 1) p d).1, polyRem p d) := by
  simp [divMod, polyRem, hd]

theorem isZeroP_pair (c : F) : isZeroP [c, 1] = false := by
  simp [isZeroP]

theorem vanishingP_succ (n : ℕ) :
    vanishingP (n + 1) = (-1 : F) :: (List.replicate n 0 ++ [1]) := by
  show polyAdd ((0 : F) :: (List.replicate n 0 ++ [1])) [-1] = _
  show ((0 : F) + -1) :: polyAdd (List.replicate n 0 ++ [1]) [] = _
  rw [polyAdd_nil_right, zero_add]

theorem isZeroP_vanishing (n : ℕ) (hn : 1 ≤ n) :
    isZeroP (vanishingP n : List F) = false := by
  obtain ⟨m, rfl⟩ : ∃ m, n = m + 1 := ⟨n - 1, by omega⟩
  rw [vanishingP_succ]
  unfold isZeroP
  rw [List.all_eq_false]
  exact ⟨1, by simp, by simp⟩

/-- C3.  Every required exact division checks its remainder and fails
with the `PolyDivision` kind (the spec's `PolyDivisionFailed`) if and
only if that remainder is nonzero: in `tbllkp_quot`, the boundary term
`α₁·(l-1)` is divided by `(x-1)` and
`α₂·(l-1) + α₃·(h1 - h2·shift)` by `(x-ω^{n-1})`; in `create`, the
assembled quotient numerator is divided by the domain's vanishing
polynomial.  On a nonzero remainder no `Ok` value is produced. -/
theorem division_remainder_checks (lkppolys : LookupPolys F)
    (sid : List F) (n : ℕ) (beta2 gamma2 : F) (alpha : List F)
    (ev : LkpQuotEvalsIn F) (numerator : List F) (hn : 1 ≤ n) :
    ((∃ e, tbllkp_quot lkppolys sid n beta2 gamma2 alpha ev =
        Except.error e) ↔
      (isZeroP (polyRem
          (polyScale (alpha.getD 1 0) (polySub lkppolys.l [1]))
          [-1, 1]) = false ∨
        isZeroP (polyRem
          (polyAdd (polyScale (alpha.getD 2 0) (polySub lkppolys.l [1]))
            (polyScale (alpha.getD 3 0) (polySub lkppolys.h1
              (List.zipWith (fun z w => z * w) lkppolys.h2 sid))))
          [-(sid.getD (n - 1) 0), 1]) = false)) ∧
    (∀ e, tbllkp_quot lkppolys sid n beta2 gamma2 alpha ev =
        Except.error e → e = ProofError.PolyDivision) ∧
    ((∃ e, createDivideStep numerator n = Except.error e) ↔
      isZeroP (polyRem numerator (vanishingP n)) = false) ∧
    (∀ e, createDivideStep numerator n = Except.error e →
      e = ProofError.PolyDivision) := by
  have h1d : isZeroP ([-1, 1] : List F) = false := isZeroP_pair _
  have h2d : isZeroP [-(sid.getD (n - 1) 0), (1 : F)] = false :=
    isZeroP_pair _
  have h3d : isZeroP (vanishingP n : List F) = false :=
    isZeroP_vanishing n hn
  unfold tbllkp_quot createDivideStep
  rw [divMod_eq_of_not_zero _ _ h1d, divMod_eq_of_not_zero _ _ h2d,
    divMod_eq_of_not_zero _ _ h3d]
  cases hr1 : isZeroP (polyRem
      (polyScale (alpha.getD 1 0) (polySub lkppolys.l [1])) [-1, 1]) <;>
    cases hr2 : isZeroP (polyRem
      (polyAdd (polyScale (alpha.getD 2 0) (polySub lkppolys.l [1]))
        (polyScale (alpha.getD 3 0) (polySub lkppolys.h1
          (List.zipWith (fun z w => z * w) lkppolys.h2 sid))))
      [-(sid.getD (n - 1) 0), 1]) <;>
    cases hr3 : isZeroP (polyRem numerator (vanishingP n)) <;>
      simp_all

theorem division_remainder_checks_witness :
    1 ≤ 1 ∧
    (((∃ e, tbllkp_quot (F := ZMod 5) ⟨[1], [1], [1], [1]⟩ [1] 1 0 0 []
          ⟨[], [], [], [], [], [], [], [], [], [], []⟩ =
        Except.error e) ↔
      (isZeroP (polyRem
          (polyScale (([] : List (ZMod 5)).getD 1 0)
            (polySub [1] [1])) [-1, 1]) = false ∨
        isZeroP (polyRem
          (polyAdd (polyScale (([] : List (ZMod 5)).getD 2 0)
              (polySub [1] [1]))
            (polyScale (([] : List (ZMod 5)).getD 3 0) (polySub [1]
              (List.zipWith (fun z w => z * w) [1] [1]))))
          [-(([1] : List (ZMod 5)).getD 0 0), 1]) = false)) ∧
    (∀ e, tbllkp_quot (F := ZMod 5) ⟨[1], [1], [1], [1]⟩ [1] 1 0 0 []
          ⟨[], [], [], [], [], [], [], [], [], [], []⟩ =
        Except.error e → e = ProofError.PolyDivision) ∧
    ((∃ e, createDivideStep ([] : List (ZMod 5)) 1 = Except.error e) ↔
      isZeroP (polyRem ([] : List (ZMod 5)) (vanishingP 1)) = false) ∧
    (∀ e, createDivideStep ([] : List (ZMod 5)) 1 = Except.error e →
      e = ProofError.PolyDivision)) :=
  ⟨by decide,
    division_remainder_checks ⟨[1], [1], [1], [1]⟩ [1] 1 0 0 []
      ⟨[], [], [], [], [], [], [], [], [], [], []⟩ [] (by decide)⟩

/-! ## Prover orchestration (`dlog/plonk-15-wires/src/prover.rs`)

The Fiat-Shamir transcript is modelled symbolically: each sponge is an
event list, and a squeezed challenge is a value tagged with the exact
event history at the moment it is produced.  External collaborators
(commitment scheme, FFT interpolation, the permutation argument, gate
quotient contributions, evaluation, opening proof) are opaque function
parameters bundled in `CreateExt`; commitments live in an opaque
curve-point type `G`, evaluation bundles in `E`, randomness state in
`R`, and the opening proof in `O`.  Polynomial coefficient vectors stay
concrete (`List F`). -/

/-- Events absorbed by the base-field sponge (vectors of curve points,
one event per `absorb_g` call). -/
inductive FqEvent (G : Type) where
  | absorbG : List G → FqEvent G
  | squeeze : FqEvent G
  deriving DecidableEq, Repr, Inhabited

/-- Symbolic scalar values derived from the base-field sponge:
`fqChal h` is `fq_sponge.challenge()` at history `h`, `toField` is the
endomorphism fold of a `ScalarChallenge`, `mulGen` is multiplication by
the domain generator `ω`, `pEval p x` is evaluation of the concrete
polynomial `p` at point `x`, and `lit` embeds a concrete scalar. -/
inductive SymF (F G : Type) where
  | fqChal : List (FqEvent G) → SymF F G
  | toField : SymF F G → SymF F G
  | mulGen : SymF F G → SymF F G
  | pEval : List F → SymF F G → SymF F G
  | lit : F → SymF F G
  deriving DecidableEq, Repr, Inhabited

/-- Events absorbed by the scalar-field sponge: the seeding digest of
the base-field sponge, one `absorb_evaluations` call per evaluation
point (public-input evaluation vector plus the evaluation bundle), and
squeezes. -/
inductive FrEvent (F G E : Type) where
  | absorbDigest : List (FqEvent G) → FrEvent F G E
  | absorbEvals : List (SymF F G) → E → FrEvent F G E
  | squeeze : FrEvent F G E
  deriving DecidableEq, Repr, Inhabited

/-- Symbolic values squeezed from the scalar-field sponge. -/
inductive SymFr (F G E : Type) where
  | frChal : List (FrEvent F G E) → SymFr F G E
  | toField : SymFr F G E → SymFr F G E
  deriving DecidableEq, Repr, Inhabited

/-- `commitment_dlog::commitment::PolyComm`. -/
structure PolyComm (G : Type) where
  unshifted : List G
  shifted : Option G
  deriving DecidableEq, Repr, Inhabited

/-- The `RandomOracles` record filled by `create`, in transcript order.
Each field is assigned exactly once (the record is built from the
let-bound challenge values at the end of the run). -/
structure RandomOracles (F G E : Type) where
  beta : SymF F G
  gamma : SymF F G
  alpha_chal : SymF F G
  alpha : SymF F G
  zeta_chal : SymF F G
  zeta : SymF F G
  v_chal : SymFr F G E
  v : SymFr F G E
  u_chal : SymFr F G E
  u : SymFr F G E
  deriving DecidableEq, Repr, Inhabited

/-- The data assembled by a successful `create` run (the `ProverProof`
plus, for specification purposes, the internal `RandomOracles`). -/
structure CreateResult (F G E O : Type) where
  w_comm : List (PolyComm G)
  z_comm : PolyComm G
  t_comm : PolyComm G
  proof : O
  evals : E × E
  publicInput : List F
  prev_challenges : List (List F × PolyComm G)
  oracles : RandomOracles F G E
  deriving DecidableEq, Repr, Inhabited

/-- How a `create` run ends: a proof, a reported error, or an abnormal
Rust termination (a panicking `unwrap`/`vec!` length underflow). -/
inductive Outcome (A : Type) where
  | ok : A → Outcome A
  | err : ProofError → Outcome A
  | crashed : Outcome A
  deriving DecidableEq, Repr

/-- The cryptographic work performed by a run: base-field sponge
events, scalar-field sponge events, and the polynomials sent to the
commitment scheme, in order. -/
structure CreateTrace (F G E : Type) where
  fqEvents : List (FqEvent G)
  frEvents : List (FrEvent F G E)
  commits : List (List F)
  deriving DecidableEq, Repr, Inhabited

/-- External collaborators of `create` (commitment scheme, polynomial
algebra, permutation argument, gate contributions, opening proof). -/
structure CreateExt (F G E R O : Type) where
  interp : List F → List F
  commit : List F → Option ℕ → R → (PolyComm G × List F) × R
  commitNonHiding : List F → Option ℕ → PolyComm G
  permAggreg : List (List F) → SymF F G → SymF F G → R →
    Except ProofError (List F) × R
  quotNumerator : List (List F) → List F → SymF F G → SymF F G →
    SymF F G → Except ProofError (List F × List F)
  gZero : G → Bool
  dummy : G
  computeEvals : List (List F) → List F → List F → SymF F G → E × E
  openProof : List (FqEvent G) → SymFr F G E → SymFr F G E → R → O × R

/-- Commit to every witness column in order, threading the randomness
state (step 3 of `create`). -/
def commitAll {F G R : Type}
    (commit : List F → Option ℕ → R → (PolyComm G × List F) × R) :
    List (List F) → R → List (PolyComm G × List F) × R
  | [], r => ([], r)
  | p :: ps, r =>
    let cr := commit p none r
    let rest := commitAll commit ps cr.2
    (cr.1 :: rest.1, rest.2)

variable {G E R O : Type}

/-- `ProverProof::create`, step for step:
1. witness shape check (before any other work);
2. public-input polynomial `p = -interpolate(witness[0][0..public])`;
3. witness interpolation and hiding commitments;
4. absorb the public-input commitment and all witness commitments,
   squeeze `beta` and `gamma`;
5. permutation aggregation (may fail), commit, absorb, squeeze the
   `alpha` scalar challenge and fold it;
6-8. gate quotient contributions (may fail), exact division by the
   vanishing polynomial (checked remainder), `t += bnd`;
9-10. commit `t` with a maximum size, absorb its chunks padded with a
   dummy point up to `max_t_size` (a `vec!` length underflow or a
   `None` shifted part is a Rust panic, modelled as `crashed`), squeeze
   the `zeta` scalar challenge and fold it;
11-12. evaluate everything at `ζ` and `ζω`; seed the scalar-field
   sponge with a digest of the base-field sponge; absorb the
   public-input evaluations (empty vectors when `p = 0`) and the
   evaluation bundles;
13. squeeze `v` and `u`;
14. produce the opening proof and assemble the result. -/
def create (ext : CreateExt F G E R O) (witness : List (List F))
    (pubSize n maxQuotSize maxPolySize : ℕ)
    (prev_challenges : List (List F × PolyComm G)) (rng : R) :
    Outcome (CreateResult F G E O) × CreateTrace F G E :=
  if witness.any (fun w => w.length ≠ n) then
    (Outcome.err ProofError.WitnessCsInconsistent, ⟨[], [], []⟩)
  else
    let publicInput := (witness.headD []).take pubSize
    let p := polyNeg (ext.interp publicInput)
    let w := witness.map ext.interp
    let wcr := commitAll ext.commit w rng
    let w_comm := wcr.1
    let public_comm := (ext.commitNonHiding p none).unshifted
    let log1 := w ++ [p]
    let fq1 := FqEvent.absorbG public_comm ::
      w_comm.map (fun c => FqEvent.absorbG c.1.unshifted)
    let beta := SymF.fqChal fq1
    let fq2 := fq1 ++ [FqEvent.squeeze]
    let gamma := SymF.fqChal fq2
    let fq3 := fq2 ++ [FqEvent.squeeze]
    match ext.permAggreg witness beta gamma wcr.2 with
    | (Except.error e, _) => (Outcome.err e, ⟨fq3, [], log1⟩)
    | (Except.ok z, rng2) =>
      let zcr := ext.commit z none rng2
      let z_comm := zcr.1.1
      let fq4 := fq3 ++ [FqEvent.absorbG z_comm.unshifted]
      let alpha_chal := SymF.fqChal fq4
      let fq5 := fq4 ++ [FqEvent.squeeze]
      let alpha := SymF.toField alpha_chal
      match ext.quotNumerator w p beta gamma alpha with
      | Except.error e => (Outcome.err e, ⟨fq5, [], log1 ++ [z]⟩)
      | Except.ok (numer, bnd) =>
        match createDivideStep numer n with
        | Except.error e => (Outcome.err e, ⟨fq5, [], log1 ++ [z]⟩)
        | Except.ok t0 =>
          let t := polyAdd t0 bnd
          let tcr := ext.commit t (some maxQuotSize) zcr.2
          let t_comm := tcr.1.1
          let log2 := log1 ++ [z, t]
          let max_t_size := (maxQuotSize + maxPolySize - 1) / maxPolySize
          let fq6 := fq5 ++ [FqEvent.absorbG t_comm.unshifted]
          if t_comm.unshifted.length > max_t_size then
            (Outcome.crashed, ⟨fq6, [], log2⟩)
          else
            let fq7 := fq6 ++ [FqEvent.absorbG (List.replicate
              (max_t_size - t_comm.unshifted.length) ext.dummy)]
            match t_comm.shifted with
            | none => (Outcome.crashed, ⟨fq7, [], log2⟩)
            | some s =>
              let fq8 := fq7 ++ [FqEvent.absorbG
                [if ext.gZero s then ext.dummy else s]]
              let zeta_chal := SymF.fqChal fq8
              let fq9 := fq8 ++ [FqEvent.squeeze]
              let zeta := SymF.toField zeta_chal
              let evalsPair := ext.computeEvals w z t zeta
              let p_eval : List (SymF F G) × List (SymF F G) :=
                if isZeroP p then ([], [])
                else ([SymF.pEval p zeta],
                  [SymF.pEval p (SymF.mulGen zeta)])
              let fr1 := [FrEvent.absorbDigest fq9,
                FrEvent.absorbEvals p_eval.1 evalsPair.1,
                FrEvent.absorbEvals p_eval.2 evalsPair.2]
              let v_chal := SymFr.frChal fr1
              let fr2 := fr1 ++ [FrEvent.squeeze]
              let v := SymFr.toField v_chal
              let u_chal := SymFr.frChal fr2
              let fr3 := fr2 ++ [FrEvent.squeeze]
              let u := SymFr.toField u_chal
              let opr := ext.openProof fq9 v u tcr.2
              (Outcome.ok
                { w_comm := w_comm.map (fun c => c.1)
                  z_comm := z_comm
                  t_comm := t_comm
                  proof := opr.1
                  evals := evalsPair
                  publicInput := publicInput
                  prev_challenges := prev_challenges
                  oracles :=
                    { beta := beta
                      gamma := gamma
                      alpha_chal := alpha_chal
                      alpha := alpha
                      zeta_chal := zeta_chal
                      zeta := zeta
                      v_chal := v_chal
                      v := v
                      u_chal := u_chal
                      u := u } },
               ⟨fq9, fr3, log2⟩)

/-! ## C5: the witness shape check happens before any cryptographic work -/

/-- C5.  If any witness column's length differs from the domain size
`n`, `create` returns the `WitnessCsInconsistent` kind (the spec's
`WitnessShapeMismatch`) with an empty trace: no commitment was
requested, no sponge event was produced, and no transcript state was
created. -/
theorem create_shape_check_first (ext : CreateExt F G E R O)
    (witness : List (List F)) (pubSize n maxQuotSize maxPolySize : ℕ)
    (prev_challenges : List (List F × PolyComm G)) (rng : R)
    (hbad : ∃ wc ∈ witness, wc.length ≠ n) :
    create ext witness pubSize n maxQuotSize maxPolySize prev_challenges
        rng =
      (Outcome.err ProofError.WitnessCsInconsistent, ⟨[], [], []⟩) := by
  obtain ⟨wc, hwc, hlen⟩ := hbad
  have hc : witness.any (fun w => w.length ≠ n) = true :=
    List.any_eq_true.mpr ⟨wc, hwc, by simpa using hlen⟩
  unfold create
  rw [if_pos hc]

/-- A trivial instantiation of the external collaborators over
`F = ZMod 5`, `G = ℕ`, `E = R = O = Unit`, used to exercise the
orchestration model on concrete inputs. -/
def trivExt : CreateExt (ZMod 5) ℕ Unit Unit Unit where
  interp := fun p => p
  commit := fun _ _ r => (⟨⟨[0], some 1⟩, []⟩, r)
  commitNonHiding := fun _ _ => ⟨[2], none⟩
  permAggreg := fun _ _ _ r => (Except.ok [1], r)
  quotNumerator := fun _ _ _ _ _ => Except.ok ([], [])
  gZero := fun _ => false
  dummy := 7
  computeEvals := fun _ _ _ _ => ((), ())
  openProof := fun _ _ _ r => ((), r)

theorem create_shape_check_first_witness :
    (∃ wc ∈ [([] : List (ZMod 5))], wc.length ≠ 1) ∧
    create trivExt [[]] 0 1 1 1 [] () =
      (Outcome.err ProofError.WitnessCsInconsistent, ⟨[], [], []⟩) :=
  ⟨by decide,
    create_shape_check_first trivExt [[]] 0 1 1 1 [] () (by decide)⟩

/-! ## C6: strict challenge derivation order -/

/-- C6.  On every successful run of `create`, the challenges are
derived in the strict order `beta, gamma, alpha, zeta, v, u`, each from
exactly the transcript history absorbed up to that point: `beta` from
the public-input commitment followed by the witness-column commitment
absorptions (`e1`), `gamma` after one further squeeze, the `alpha`
scalar challenge after the aggregation commitment is absorbed, the
`zeta` scalar challenge after the padded quotient commitment (chunks,
dummy padding, shifted part) is absorbed, and `v`, `u` from the
scalar-field sponge seeded with a digest of the full base-field history
after both evaluation records are absorbed.  Each folded field element
is the endomorphism fold of its scalar challenge, and each oracle field
is the single let-bound value of its stage. -/
theorem create_challenge_order (ext : CreateExt F G E R O)
    (witness : List (List F)) (pubSize n maxQuotSize maxPolySize : ℕ)
    (prev_challenges : List (List F × PolyComm G)) (rng : R)
    (res : CreateResult F G E O) (tr : CreateTrace F G E)
    (h : create ext witness pubSize n maxQuotSize maxPolySize
        prev_challenges rng = (Outcome.ok res, tr)) :
    ∃ (e1 e2 e3 e4 : List (FqEvent G)) (f1 : List (FrEvent F G E))
      (pubC : List G) (wEvents : List (FqEvent G))
      (zC tun pad : List G) (sh : G) (pe0 pe1 : List (SymF F G))
      (ev0 ev1 : E),
      res.oracles.beta = SymF.fqChal e1 ∧
      res.oracles.gamma = SymF.fqChal e2 ∧
      res.oracles.alpha_chal = SymF.fqChal e3 ∧
      res.oracles.alpha = SymF.toField res.oracles.alpha_chal ∧
      res.oracles.zeta_chal = SymF.fqChal e4 ∧
      res.oracles.zeta = SymF.toField res.oracles.zeta_chal ∧
      res.oracles.v_chal = SymFr.frChal f1 ∧
      res.oracles.v = SymFr.toField res.oracles.v_chal ∧
      res.oracles.u_chal = SymFr.frChal (f1 ++ [FrEvent.squeeze]) ∧
      res.oracles.u = SymFr.toField res.oracles.u_chal ∧
      e1 = FqEvent.absorbG pubC :: wEvents ∧
      e2 = e1 ++ [FqEvent.squeeze] ∧
      e3 = (e2 ++ [FqEvent.squeeze]) ++ [FqEvent.absorbG zC] ∧
      e4 = (((e3 ++ [FqEvent.squeeze]) ++ [FqEvent.absorbG tun]) ++
        [FqEvent.absorbG pad]) ++ [FqEvent.absorbG [sh]] ∧
      f1 = [FrEvent.absorbDigest (e4 ++ [FqEvent.squeeze]),
        FrEvent.absorbEvals pe0 ev0, FrEvent.absorbEvals pe1 ev1] ∧
      tr.fqEvents = e4 ++ [FqEvent.squeeze] ∧
      tr.frEvents = (f1 ++ [FrEvent.squeeze]) ++ [FrEvent.squeeze] ∧
      (∀ ev ∈ wEvents, ∃ gs, ev = FqEvent.absorbG gs) := by
  simp only [create] at h
  split at h
  · simp at h
  · split at h
    · simp at h
    · split at h
      · simp at h
      · split at h
        · simp at h
        · split at h
          · simp at h
          · split at h
            · simp at h
            · rw [Prod.mk.injEq] at h
              obtain ⟨hres, htr⟩ := h
              injection hres with hres
              subst hres
              subst htr
              refine ⟨_, _, _, _, _, _, _, _, _, _, _, _, _, _, _,
                rfl, rfl, rfl, rfl, rfl, rfl, rfl, rfl, rfl, rfl, rfl,
                rfl, rfl, rfl, rfl, rfl, rfl, ?_⟩
              intro ev hev
              simp only [List.mem_map] at hev
              obtain ⟨c, _, rfl⟩ := hev
              exact ⟨_, rfl⟩

/-- Project the payload out of a successful outcome. -/
def outcomeOkD {A : Type} [Inhabited A] : Outcome A → A
  | Outcome.ok a => a
  | _ => default

/-- A concrete successful run of the orchestration model. -/
def c6run :
    Outcome (CreateResult (ZMod 5) ℕ Unit Unit) × CreateTrace (ZMod 5) ℕ Unit :=
  create trivExt [[0]] 0 1 1 1 [] ()

theorem create_challenge_order_witness :
    create trivExt [[0]] 0 1 1 1 [] () =
      (Outcome.ok (outcomeOkD c6run.1), c6run.2) ∧
    (∃ (e1 e2 e3 e4 : List (FqEvent ℕ))
      (f1 : List (FrEvent (ZMod 5) ℕ Unit)) (pubC : List ℕ)
      (wEvents : List (FqEvent ℕ)) (zC tun pad : List ℕ) (sh : ℕ)
      (pe0 pe1 : List (SymF (ZMod 5) ℕ)) (ev0 ev1 : Unit),
      (outcomeOkD c6run.1).oracles.beta = SymF.fqChal e1 ∧
      (outcomeOkD c6run.1).oracles.gamma = SymF.fqChal e2 ∧
      (outcomeOkD c6run.1).oracles.alpha_chal = SymF.fqChal e3 ∧
      (outcomeOkD c6run.1).oracles.alpha =
        SymF.toField (outcomeOkD c6run.1).oracles.alpha_chal ∧
      (outcomeOkD c6run.1).oracles.zeta_chal = SymF.fqChal e4 ∧
      (outcomeOkD c6run.1).oracles.zeta =
        SymF.toField (outcomeOkD c6run.1).oracles.zeta_chal ∧
      (outcomeOkD c6run.1).oracles.v_chal = SymFr.frChal f1 ∧
      (outcomeOkD c6run.1).oracles.v =
        SymFr.toField (outcomeOkD c6run.1).oracles.v_chal ∧
      (outcomeOkD c6run.1).oracles.u_chal =
        SymFr.frChal (f1 ++ [FrEvent.squeeze]) ∧
      (outcomeOkD c6run.1).oracles.u =
        SymFr.toField (outcomeOkD c6run.1).oracles.u_chal ∧
      e1 = FqEvent.absorbG pubC :: wEvents ∧
      e2 = e1 ++ [FqEvent.squeeze] ∧
      e3 = (e2 ++ [FqEvent.squeeze]) ++ [FqEvent.absorbG zC] ∧
      e4 = (((e3 ++ [FqEvent.squeeze]) ++ [FqEvent.absorbG tun]) ++
        [FqEvent.absorbG pad]) ++ [FqEvent.absorbG [sh]] ∧
      f1 = [FrEvent.absorbDigest (e4 ++ [FqEvent.squeeze]),
        FrEvent.absorbEvals pe0 ev0, FrEvent.absorbEvals pe1 ev1] ∧
      c6run.2.fqEvents = e4 ++ [FqEvent.squeeze] ∧
      c6run.2.frEvents = (f1 ++ [FrEvent.squeeze]) ++ [FrEvent.squeeze] ∧
      (∀ ev ∈ wEvents, ∃ gs, ev = FqEvent.absorbG gs)) :=
  ⟨by rfl,
    create_challenge_order trivExt [[0]] 0 1 1 1 [] ()
      (outcomeOkD c6run.1) c6run.2 (by rfl)⟩

/-! ## C7: transcript determinism -/

/-- C7.  `create` is a pure function of its inputs once the randomness
source (`thread_rng` in the source, the explicit `rng` state here) is
fixed: two executions over identical circuit-index collaborators,
witness, previous challenges and randomness state produce identical
results — in particular bit-identical challenge sequences
(`oracles`) and commitments (`w_comm`, `z_comm`, `t_comm`).  No other
source of nondeterminism exists in the orchestration. -/
theorem create_deterministic (ext : CreateExt F G E R O)
    (witness : List (List F)) (pubSize n maxQuotSize maxPolySize : ℕ)
    (prev_challenges : List (List F × PolyComm G)) (r1 r2 : R)
    (hr : r1 = r2) :
    create ext witness pubSize n maxQuotSize maxPolySize prev_challenges
        r1 =
      create ext witness pubSize n maxQuotSize maxPolySize
        prev_challenges r2 := by
  rw [hr]

theorem create_deterministic_witness :
    (() : Unit) = () ∧
    create trivExt [[0]] 0 1 1 1 [] () =
      create trivExt [[0]] 0 1 1 1 [] () :=
  ⟨rfl, create_deterministic trivExt [[0]] 0 1 1 1 [] () () rfl⟩

/-! ## C8: the quotient-commitment absorption can panic -/

/-- External collaborators identical to `trivExt` except that the
commitment scheme returns no shifted part — which, per the source's own
TODO comment at `prover.rs:323`, happens when `max_quot_size` is a
multiple of the commitment chunk size. -/
def badExt : CreateExt (ZMod 5) ℕ Unit Unit Unit :=
  { trivExt with commit := fun _ _ r => (⟨⟨[0], none⟩, []⟩, r) }

/-- C8 exhibit.  With a well-shaped witness (one column of length
`n = 1`) and a commitment scheme returning `shifted = None` for the
quotient commitment, `create` reaches the
`t_comm.0.shifted.unwrap()` of step 10 and terminates abnormally (a
Rust panic, `Outcome.crashed`) instead of returning an `Ok` or `Err`
result — the code's own TODO at `prover.rs:323` acknowledges this
panic, contradicting the claim that `create` always reports a result. -/
theorem create_crashes_on_absent_shifted :
    (create badExt [[0]] 0 1 1 1 [] ()).1 = Outcome.crashed ∧
    ∀ wc ∈ [[(0 : ZMod 5)]], wc.length = 1 := by
  constructor
  · rfl
  · intro wc hwc
    simp at hwc
    rw [hwc]
    rfl

/-! ## C10: empty public-input evaluation vectors -/

/-- C10.  When the interpolated public-input polynomial is identically
zero, `create` absorbs empty evaluation vectors for it into the
scalar-field sponge (instead of its zero-valued evaluations at `ζ` and
`ζω`), and in the symbolic transcript the opening challenges `v`, `u`
derived from empty absorptions differ from the ones that explicit zero
evaluations would produce. -/
theorem create_empty_public_eval_absorption (ext : CreateExt F G E R O)
    (witness : List (List F)) (pubSize n maxQuotSize maxPolySize : ℕ)
    (prev_challenges : List (List F × PolyComm G)) (rng : R)
    (hp : isZeroP (polyNeg (ext.interp ((witness.headD []).take
      pubSize))) = true) :
    (∀ res tr, create ext witness pubSize n maxQuotSize maxPolySize
        prev_challenges rng = (Outcome.ok res, tr) →
      ∃ (d : List (FqEvent G)) (ev0 ev1 : E),
        res.oracles.v_chal = SymFr.frChal [FrEvent.absorbDigest d,
          FrEvent.absorbEvals [] ev0, FrEvent.absorbEvals [] ev1] ∧
        res.oracles.u_chal = SymFr.frChal
          ([FrEvent.absorbDigest d, FrEvent.absorbEvals [] ev0,
            FrEvent.absorbEvals [] ev1] ++ [FrEvent.squeeze])) ∧
    (∀ (d : List (FqEvent G)) (ev0 ev1 : E),
      SymFr.toField (SymFr.frChal [FrEvent.absorbDigest d,
          FrEvent.absorbEvals ([] : List (SymF F G)) ev0,
          FrEvent.absorbEvals [] ev1]) ≠
        SymFr.toField (SymFr.frChal [FrEvent.absorbDigest d,
          FrEvent.absorbEvals [SymF.lit 0] ev0,
          FrEvent.absorbEvals [SymF.lit 0] ev1]) ∧
      SymFr.toField (SymFr.frChal ([FrEvent.absorbDigest d,
          FrEvent.absorbEvals ([] : List (SymF F G)) ev0,
          FrEvent.absorbEvals [] ev1] ++ [FrEvent.squeeze])) ≠
        SymFr.toField (SymFr.frChal ([FrEvent.absorbDigest d,
          FrEvent.absorbEvals [SymF.lit 0] ev0,
          FrEvent.absorbEvals [SymF.lit 0] ev1] ++
          [FrEvent.squeeze]))) := by
  constructor
  · intro res tr h
    simp only [create] at h
    split at h
    · simp at h
    · split at h
      · simp at h
      · split at h
        · simp at h
        · split at h
          · simp at h
          · split at h
            · simp at h
            · split at h
              · simp at h
              · rw [Prod.mk.injEq] at h
                obtain ⟨hres, htr⟩ := h
                injection hres with hres
                subst hres
                subst htr
                exact ⟨_, _, _, rfl, rfl⟩
  · intro d ev0 ev1
    constructor
    · intro hcontra
      injection hcontra with hcontra
      injection hcontra with hcontra
      simp at hcontra
    · intro hcontra
      injection hcontra with hcontra
      injection hcontra with hcontra
      simp at hcontra

theorem create_empty_public_eval_absorption_witness :
    isZeroP (polyNeg (trivExt.interp ((([[0]] : List (List (ZMod 5))).headD
      []).take 0))) = true ∧
    ((∀ res tr, create trivExt [[0]] 0 1 1 1 [] () =
        (Outcome.ok res, tr) →
      ∃ (d : List (FqEvent ℕ)) (ev0 ev1 : Unit),
        res.oracles.v_chal = SymFr.frChal [FrEvent.absorbDigest d,
          FrEvent.absorbEvals [] ev0, FrEvent.absorbEvals [] ev1] ∧
        res.oracles.u_chal = SymFr.frChal
          ([FrEvent.absorbDigest d, FrEvent.absorbEvals [] ev0,
            FrEvent.absorbEvals [] ev1] ++ [FrEvent.squeeze])) ∧
    (∀ (d : List (FqEvent ℕ)) (ev0 ev1 : Unit),
      SymFr.toField (SymFr.frChal [FrEvent.absorbDigest d,
          FrEvent.absorbEvals ([] : List (SymF (ZMod 5) ℕ)) ev0,
          FrEvent.absorbEvals [] ev1]) ≠
        SymFr.toField (SymFr.frChal [FrEvent.absorbDigest d,
          FrEvent.absorbEvals [SymF.lit 0] ev0,
          FrEvent.absorbEvals [SymF.lit 0] ev1]) ∧
      SymFr.toField (SymFr.frChal ([FrEvent.absorbDigest d,
          FrEvent.absorbEvals ([] : List (SymF (ZMod 5) ℕ)) ev0,
          FrEvent.absorbEvals [] ev1] ++ [FrEvent.squeeze])) ≠
        SymFr.toField (SymFr.frChal ([FrEvent.absorbDigest d,
          FrEvent.absorbEvals [SymF.lit 0] ev0,
          FrEvent.absorbEvals [SymF.lit 0] ev1] ++
          [FrEvent.squeeze])))) :=
  ⟨by decide,
    create_empty_public_eval_absorption trivExt [[0]] 0 1 1 1 [] ()
      (by decide)⟩

end PlookupProver
